import Mathlib

/-!
Verification of the Koopman conformal-prediction bounds validator of the
qualisys_drone_sdk repository.

The validator core (`theoretical_bounds_validator`) is imported by
`koopman_cp/src/validate_bounds_example.py` but its module is not part of the
available sources, so the data model and operations of the validator are
modelled from the specification (each such definition carries a doc comment
starting with `Modelled from the spec:`).  The flight-logging producer
`examples/flapper/solo_koopman_conformal_circle.py` is available and is
embedded directly.

Numeric values are modelled as exact rationals (`ℚ`); the Euclidean norm used
for the tracking error lives in `ℝ` via `Real.sqrt`.
-/

namespace KoopmanCP

/-- Modelled from the spec: `CalibrationParams`, the immutable configuration
record with forward/inverse conformal quantiles, contraction factor `gamma`,
robustification margin `rho`, variance parameter `cv`, horizon `K`, and
failure probabilities `alpha`, `beta`. -/
structure CalibrationParams where
  forward_quantile : ℚ
  inverse_quantile : ℚ
  gamma : ℚ
  rho : ℚ
  cv : ℚ
  K : ℕ
  alpha : ℚ
  beta : ℚ
deriving DecidableEq

/-- Modelled from the spec: `TheoreticalBound`, the derived immutable record
with the steady-state tracking-error radius `delta_r` and the guaranteed
`probability`. -/
structure TheoreticalBound where
  delta_r : ℚ
  probability : ℚ
deriving DecidableEq

/-- Modelled from the spec: `ConfigurationError` names the offending
calibration field. -/
structure ConfigurationError where
  offending : String
deriving DecidableEq

/-- The input constraints of `BoundsModel.derive` as stated in the spec:
`0 < gamma < 1`, `K ≥ 1`, `alpha, beta ∈ (0,1)`, `alpha + beta < 1`, and
`forward_quantile, inverse_quantile, rho, cv ≥ 0`. -/
def validParams (p : CalibrationParams) : Prop :=
  0 < p.gamma ∧ p.gamma < 1 ∧ 1 ≤ p.K ∧
  0 < p.alpha ∧ p.alpha < 1 ∧ 0 < p.beta ∧ p.beta < 1 ∧
  p.alpha + p.beta < 1 ∧
  0 ≤ p.forward_quantile ∧ 0 ≤ p.inverse_quantile ∧ 0 ≤ p.rho ∧ 0 ≤ p.cv

instance (p : CalibrationParams) : Decidable (validParams p) := by
  unfold validParams; infer_instance

/-- Modelled from the spec: `BoundsModel.derive`.  Validates each field in
turn, failing with a `ConfigurationError` naming the offending field, then
computes `probability = 1 - alpha - beta` and
`delta_r = (forward_quantile + rho) / (1 - gamma) + inverse_quantile`. -/
def derive (p : CalibrationParams) : Except ConfigurationError TheoreticalBound :=
  if ¬ (0 < p.gamma ∧ p.gamma < 1) then .error ⟨"gamma"⟩
  else if ¬ (1 ≤ p.K) then .error ⟨"K"⟩
  else if ¬ (0 < p.alpha ∧ p.alpha < 1) then .error ⟨"alpha"⟩
  else if ¬ (0 < p.beta ∧ p.beta < 1) then .error ⟨"beta"⟩
  else if ¬ (p.alpha + p.beta < 1) then .error ⟨"alpha+beta"⟩
  else if ¬ (0 ≤ p.forward_quantile) then .error ⟨"forward_quantile"⟩
  else if ¬ (0 ≤ p.inverse_quantile) then .error ⟨"inverse_quantile"⟩
  else if ¬ (0 ≤ p.rho) then .error ⟨"rho"⟩
  else if ¬ (0 ≤ p.cv) then .error ⟨"cv"⟩
  else .ok ⟨(p.forward_quantile + p.rho) / (1 - p.gamma) + p.inverse_quantile,
            1 - p.alpha - p.beta⟩

/-- On valid parameters `derive` returns exactly the spec's closed-form bound. -/
lemma derive_eq_of_valid {p : CalibrationParams} (h : validParams p) :
    derive p = .ok ⟨(p.forward_quantile + p.rho) / (1 - p.gamma) + p.inverse_quantile,
                    1 - p.alpha - p.beta⟩ := by
  obtain ⟨h1, h2, h3, h4, h5, h6, h7, h8, h9, h10, h11, h12⟩ := h
  unfold derive
  rw [if_neg (not_not_intro ⟨h1, h2⟩), if_neg (not_not_intro h3),
    if_neg (not_not_intro ⟨h4, h5⟩), if_neg (not_not_intro ⟨h6, h7⟩),
    if_neg (not_not_intro h8), if_neg (not_not_intro h9),
    if_neg (not_not_intro h10), if_neg (not_not_intro h11),
    if_neg (not_not_intro h12)]

/-- On valid parameters the derived radius dominates the inverse quantile. -/
lemma inverse_quantile_le_delta {p : CalibrationParams} (h : validParams p) :
    p.inverse_quantile ≤
      (p.forward_quantile + p.rho) / (1 - p.gamma) + p.inverse_quantile := by
  obtain ⟨h1, h2, h3, h4, h5, h6, h7, h8, h9, h10, h11, h12⟩ := h
  have hg : (0:ℚ) < 1 - p.gamma := by linarith
  have hnum : (0:ℚ) ≤ p.forward_quantile + p.rho := by linarith
  have := div_nonneg hnum hg.le
  linarith

/-- The concrete calibration of the example script
`koopman_cp/src/validate_bounds_example.py`. -/
def exampleParams : CalibrationParams :=
  { forward_quantile := 858/10000
    inverse_quantile := 1350/10000
    gamma := 9/10
    rho := 0
    cv := 1/100
    K := 10
    alpha := 1/10
    beta := 1/10 }

end KoopmanCP

namespace KoopmanCP

/-- A calibration with `gamma = 1`: the geometric-series bound would be
infinite, so `derive` must reject it. -/
def gammaOneParams : CalibrationParams :=
  { exampleParams with gamma := 1 }

/-- A calibration with `alpha + beta = 1`: zero guaranteed coverage, so
`derive` must reject it. -/
def alphaBetaHighParams : CalibrationParams :=
  { exampleParams with alpha := 1/2, beta := 1/2 }

/-- Claim C1: for every `CalibrationParams` satisfying the input constraints,
`BoundsModel.derive` returns a `TheoreticalBound` with
`probability = 1 - alpha - beta` exactly and
`delta_r = (forward_quantile + rho) / (1 - gamma) + inverse_quantile`, and the
returned radius satisfies `delta_r ≥ inverse_quantile`. -/
theorem derive_valid_formula (p : CalibrationParams) (h : validParams p) :
    derive p = .ok ⟨(p.forward_quantile + p.rho) / (1 - p.gamma) + p.inverse_quantile,
                    1 - p.alpha - p.beta⟩ ∧
    ∀ b : TheoreticalBound, derive p = .ok b → p.inverse_quantile ≤ b.delta_r := by
  refine ⟨derive_eq_of_valid h, ?_⟩
  intro b hb
  rw [derive_eq_of_valid h] at hb
  cases hb
  exact inverse_quantile_le_delta h

/-- Witness for C1: at the example calibration, `derive` succeeds with
`probability = 4/5 = 0.8` and `delta_r = 993/1000 = 0.993`. -/
theorem derive_valid_formula_witness :
    validParams exampleParams ∧
    derive exampleParams = .ok ⟨993/1000, 4/5⟩ ∧
    exampleParams.inverse_quantile ≤ (993/1000 : ℚ) := by
  have hv : validParams exampleParams := by
    unfold validParams exampleParams; norm_num
  have h := derive_valid_formula exampleParams hv
  have heq : derive exampleParams = .ok ⟨993/1000, 4/5⟩ := by
    rw [h.1]
    simp only [exampleParams, Except.ok.injEq, TheoreticalBound.mk.injEq]
    norm_num
  exact ⟨hv, heq, by simpa using h.2 ⟨993/1000, 4/5⟩ heq⟩

/-- Claim C3: `BoundsModel.derive` fails with a `ConfigurationError` naming
the offending field on every parameter set violating the input constraints;
in particular it fails whenever `gamma ≥ 1` (naming `gamma`) and whenever
`alpha + beta ≥ 1`, rather than returning a clamped bound. -/
theorem derive_rejects_invalid :
    (∀ p : CalibrationParams, ¬ validParams p → ∃ e, derive p = .error e) ∧
    (∀ p : CalibrationParams, 1 ≤ p.gamma → derive p = .error ⟨"gamma"⟩) ∧
    (∀ p : CalibrationParams, 1 ≤ p.alpha + p.beta → ∃ e, derive p = .error e) := by
  have hmain : ∀ p : CalibrationParams, ¬ validParams p → ∃ e, derive p = .error e := by
    intro p hp
    unfold derive
    by_cases g1 : 0 < p.gamma ∧ p.gamma < 1
    · rw [if_neg (not_not_intro g1)]
      by_cases g2 : 1 ≤ p.K
      · rw [if_neg (not_not_intro g2)]
        by_cases g3 : 0 < p.alpha ∧ p.alpha < 1
        · rw [if_neg (not_not_intro g3)]
          by_cases g4 : 0 < p.beta ∧ p.beta < 1
          · rw [if_neg (not_not_intro g4)]
            by_cases g5 : p.alpha + p.beta < 1
            · rw [if_neg (not_not_intro g5)]
              by_cases g6 : 0 ≤ p.forward_quantile
              · rw [if_neg (not_not_intro g6)]
                by_cases g7 : 0 ≤ p.inverse_quantile
                · rw [if_neg (not_not_intro g7)]
                  by_cases g8 : 0 ≤ p.rho
                  · rw [if_neg (not_not_intro g8)]
                    by_cases g9 : 0 ≤ p.cv
                    · exact absurd (show validParams p from
                        ⟨g1.1, g1.2, g2, g3.1, g3.2, g4.1, g4.2, g5, g6, g7, g8, g9⟩) hp
                    · rw [if_pos g9]; exact ⟨_, rfl⟩
                  · rw [if_pos g8]; exact ⟨_, rfl⟩
                · rw [if_pos g7]; exact ⟨_, rfl⟩
              · rw [if_pos g6]; exact ⟨_, rfl⟩
            · rw [if_pos g5]; exact ⟨_, rfl⟩
          · rw [if_pos g4]; exact ⟨_, rfl⟩
        · rw [if_pos g3]; exact ⟨_, rfl⟩
      · rw [if_pos g2]; exact ⟨_, rfl⟩
    · rw [if_pos g1]; exact ⟨_, rfl⟩
  refine ⟨hmain, ?_, ?_⟩
  · intro p hγ
    unfold derive
    rw [if_pos (fun hc => absurd hc.2 (not_lt.mpr hγ))]
  · intro p hab
    exact hmain p (fun hv => absurd hv.2.2.2.2.2.2.2.1 (not_lt.mpr hab))

/-- Witness for C3: `derive` rejects the `gamma = 1` calibration naming
`gamma`, and rejects the `alpha + beta = 1` calibration. -/
theorem derive_rejects_invalid_witness :
    derive gammaOneParams = .error ⟨"gamma"⟩ ∧
    ∃ e, derive alphaBetaHighParams = .error e := by
  constructor
  · exact derive_rejects_invalid.2.1 gammaOneParams
      (by simp [gammaOneParams])
  · exact derive_rejects_invalid.2.2 alphaBetaHighParams
      (by simp [alphaBetaHighParams]; norm_num)

/-- A 3-dimensional position vector with exact rational coordinates. -/
structure Vec3 where
  x : ℚ
  y : ℚ
  z : ℚ
deriving DecidableEq

/-- Componentwise difference of position vectors. -/
def Vec3.sub (a b : Vec3) : Vec3 :=
  ⟨a.x - b.x, a.y - b.y, a.z - b.z⟩

/-- Squared Euclidean norm of a position vector. -/
def Vec3.normSq (v : Vec3) : ℚ :=
  v.x ^ 2 + v.y ^ 2 + v.z ^ 2

/-- Modelled from the spec: `TrajectorySample`, one recorded timestep with a
time stamp, the actual position and the target position. -/
structure TrajectorySample where
  time : ℚ
  actual_position : Vec3
  target_position : Vec3
deriving DecidableEq

/-- Squared tracking error of a sample, an exact rational. -/
def errSq (s : TrajectorySample) : ℚ :=
  (s.actual_position.sub s.target_position).normSq

/-- Modelled from the spec: the tracking error of a sample is the Euclidean
norm of `actual_position - target_position`. -/
noncomputable def trackingError (s : TrajectorySample) : ℝ :=
  Real.sqrt ((errSq s : ℚ) : ℝ)

/-- Decidable test for `tracking_error ≤ d`, phrased on the squared norm. -/
def withinBound (s : TrajectorySample) (d : ℚ) : Bool :=
  decide (0 ≤ d) && decide (errSq s ≤ d ^ 2)

lemma errSq_nonneg (s : TrajectorySample) : 0 ≤ errSq s := by
  unfold errSq Vec3.normSq; positivity

/-- The boolean bound test agrees with the Euclidean-norm comparison. -/
lemma withinBound_iff (s : TrajectorySample) (d : ℚ) :
    withinBound s d = true ↔ trackingError s ≤ (d : ℝ) := by
  rw [trackingError, Real.sqrt_le_iff, withinBound]
  simp only [Bool.and_eq_true, decide_eq_true_eq]
  constructor
  · rintro ⟨h1, h2⟩
    refine ⟨by exact_mod_cast h1, ?_⟩
    calc ((errSq s : ℚ) : ℝ) ≤ ((d ^ 2 : ℚ) : ℝ) := by exact_mod_cast h2
      _ = (d : ℝ) ^ 2 := by push_cast; ring
  · rintro ⟨h1, h2⟩
    refine ⟨by exact_mod_cast h1, ?_⟩
    have : ((errSq s : ℚ) : ℝ) ≤ ((d ^ 2 : ℚ) : ℝ) := by push_cast; linarith [h2]
    exact_mod_cast this

lemma trackingError_nonneg (s : TrajectorySample) : 0 ≤ trackingError s :=
  Real.sqrt_nonneg _

lemma trackingError_eq_zero_iff (s : TrajectorySample) :
    trackingError s = 0 ↔ errSq s = 0 := by
  rw [trackingError, Real.sqrt_eq_zero (by exact_mod_cast errSq_nonneg s)]
  exact_mod_cast Iff.rfl

/-- Modelled from the spec: `ValidationResult`, derived from one trajectory
and one `TheoreticalBound`. -/
structure ValidationResult where
  theoretical_probability : ℚ
  empirical_probability : ℚ
  total_points : ℕ
  points_within_bounds : ℕ
  mean_tracking_error : ℝ
  std_tracking_error : ℝ
  max_violation : ℝ
  bounds : TheoreticalBound
  validation_passed : Bool

/-- Modelled from the spec: `validate_single_trajectory`.  For each sample the
tracking error is the Euclidean norm of the position difference;
`points_within_bounds` counts samples with `tracking_error ≤ delta_r`;
`empirical_probability = points_within_bounds / total_points`; the mean and
the population standard deviation range over all samples; `max_violation` is
the largest excess `tracking_error - delta_r` over the out-of-bound samples
(0 when none); `validation_passed` uses the one-sided tolerance rule
`empirical ≥ theoretical - tolerance` fixed by section 8 of the spec. -/
noncomputable def validate_single_trajectory (traj : List TrajectorySample)
    (b : TheoreticalBound) (tolerance : ℚ) : ValidationResult :=
  let total := traj.length
  let within := (traj.filter (fun s => withinBound s b.delta_r)).length
  let emp : ℚ := (within : ℚ) / (total : ℚ)
  let errs : List ℝ := traj.map trackingError
  let mean : ℝ := errs.sum / (total : ℝ)
  let std : ℝ := Real.sqrt ((errs.map (fun e => (e - mean) ^ 2)).sum / (total : ℝ))
  let violations : List ℝ :=
    (traj.filter (fun s => ! withinBound s b.delta_r)).map
      (fun s => trackingError s - (b.delta_r : ℝ))
  { theoretical_probability := b.probability
    empirical_probability := emp
    total_points := total
    points_within_bounds := within
    mean_tracking_error := mean
    std_tracking_error := std
    max_violation := violations.foldr max 0
    bounds := b
    validation_passed := decide (b.probability - tolerance ≤ emp) }

lemma length_filter_add_length_filter_not {α : Type*} (p : α → Bool) :
    ∀ l : List α, (l.filter p).length + (l.filter (fun a => ! p a)).length = l.length
  | [] => rfl
  | a :: l => by
    have ih := length_filter_add_length_filter_not p l
    cases h : p a <;> simp [List.filter_cons, h] <;> omega

lemma foldr_max_init_le {α : Type*} [LinearOrder α] (a : α) :
    ∀ l : List α, a ≤ l.foldr max a
  | [] => le_refl a
  | x :: l => le_trans (foldr_max_init_le a l) (le_max_right x _)

lemma le_foldr_max_of_mem {α : Type*} [LinearOrder α] {x : α} (a : α) :
    ∀ {l : List α}, x ∈ l → x ≤ l.foldr max a
  | y :: l, hx => by
    rcases List.mem_cons.mp hx with h | h
    · exact h ▸ le_max_left _ _
    · exact le_trans (le_foldr_max_of_mem a h) (le_max_right y _)

lemma foldr_max_mem {α : Type*} [LinearOrder α] (a : α) :
    ∀ l : List α, l.foldr max a ∈ l ∨ l.foldr max a = a
  | [] => Or.inr rfl
  | x :: l => by
    rcases max_choice x (l.foldr max a) with h | h
    · exact Or.inl (by rw [List.foldr_cons, h]; exact List.mem_cons_self x l)
    · rcases foldr_max_mem a l with h' | h'
      · exact Or.inl (by rw [List.foldr_cons, h]; exact List.mem_cons_of_mem x h')
      · exact Or.inr (by rw [List.foldr_cons, h, h'])

/-- The theoretical bound derived from the example calibration. -/
def exampleBound : TheoreticalBound := ⟨993/1000, 4/5⟩

lemma validParams_example : validParams exampleParams := by
  unfold validParams exampleParams; norm_num

lemma derive_example : derive exampleParams = .ok exampleBound := by
  rw [derive_eq_of_valid validParams_example]
  simp only [exampleParams, exampleBound, Except.ok.injEq, TheoreticalBound.mk.injEq]
  norm_num

/-- The zero vector. -/
def originVec : Vec3 := ⟨0, 0, 0⟩

/-- A sample with zero tracking error. -/
def zeroSample : TrajectorySample := ⟨0, ⟨1/2, 0, 0⟩, ⟨1/2, 0, 0⟩⟩

/-- A sample with tracking error 5 (actual at (3,4,0), target at the origin). -/
def farSample : TrajectorySample := ⟨1, ⟨3, 4, 0⟩, originVec⟩

/-- A two-sample trajectory: one sample within the example bound, one far
outside it. -/
def trajTwo : List TrajectorySample := [zeroSample, farSample]

/-- A sample sitting exactly at the origin target. -/
def zSample : TrajectorySample := ⟨0, originVec, originVec⟩

/-- A one-sample trajectory with zero tracking error. -/
def trajZero : List TrajectorySample := [zSample]

lemma withinBound_zeroSample : withinBound zeroSample exampleBound.delta_r = true := by
  rw [withinBound, Bool.and_eq_true, decide_eq_true_eq, decide_eq_true_eq]
  constructor
  · norm_num [exampleBound]
  · norm_num [errSq, Vec3.sub, Vec3.normSq, zeroSample, exampleBound]

lemma withinBound_farSample : withinBound farSample exampleBound.delta_r = false := by
  have h2 : ¬ (errSq farSample ≤ exampleBound.delta_r ^ 2) := by
    norm_num [errSq, Vec3.sub, Vec3.normSq, farSample, originVec, exampleBound]
  rw [withinBound, decide_eq_false h2, Bool.and_false]

lemma trajTwo_filter_within :
    (trajTwo.filter (fun s => withinBound s exampleBound.delta_r)).length = 1 := by
  simp [trajTwo, List.filter_cons, withinBound_zeroSample, withinBound_farSample]

lemma trajTwo_filter_not_within :
    trajTwo.filter (fun s => ! withinBound s exampleBound.delta_r) = [farSample] := by
  simp [trajTwo, List.filter_cons, withinBound_zeroSample, withinBound_farSample]

lemma trackingError_farSample : trackingError farSample = 5 := by
  have h : errSq farSample = 25 := by
    norm_num [errSq, Vec3.sub, Vec3.normSq, farSample, originVec]
  rw [trackingError, h, show (((25:ℚ):ℝ)) = (5:ℝ) ^ 2 by push_cast; norm_num]
  exact Real.sqrt_sq (by norm_num)

lemma trackingError_zSample : trackingError zSample = 0 :=
  (trackingError_eq_zero_iff zSample).mpr
    (by norm_num [errSq, Vec3.sub, Vec3.normSq, zSample, originVec])

end KoopmanCP

namespace KoopmanCP

/-- Claim C2: for every non-empty trajectory, `validate_single_trajectory`
counts as `points_within_bounds` the samples whose Euclidean tracking error is
at most `delta_r`, sets `total_points` to the sample count and
`empirical_probability` to `points_within_bounds / total_points`; with exactly
`M` samples exceeding the bound the count is `N - M` and the probability
`(N - M)/N`. -/
theorem validate_single_counts (traj : List TrajectorySample) (b : TheoreticalBound)
    (tolerance : ℚ) (h : traj ≠ []) :
    (validate_single_trajectory traj b tolerance).total_points = traj.length ∧
    (validate_single_trajectory traj b tolerance).points_within_bounds =
      (traj.filter (fun s => withinBound s b.delta_r)).length ∧
    (∀ s ∈ traj, withinBound s b.delta_r = true ↔ trackingError s ≤ (b.delta_r : ℝ)) ∧
    (validate_single_trajectory traj b tolerance).empirical_probability =
      (((validate_single_trajectory traj b tolerance).points_within_bounds : ℚ)) /
        (((validate_single_trajectory traj b tolerance).total_points : ℚ)) ∧
    (validate_single_trajectory traj b tolerance).points_within_bounds =
      traj.length - (traj.filter (fun s => ! withinBound s b.delta_r)).length ∧
    (validate_single_trajectory traj b tolerance).empirical_probability =
      ((traj.length - (traj.filter (fun s => ! withinBound s b.delta_r)).length : ℕ) : ℚ) /
        (traj.length : ℚ) := by
  have hsplit := length_filter_add_length_filter_not
    (fun s => withinBound s b.delta_r) traj
  have hn : (traj.filter (fun s => withinBound s b.delta_r)).length
      = traj.length - (traj.filter (fun s => ! withinBound s b.delta_r)).length := by
    omega
  refine ⟨by simp [validate_single_trajectory],
    by simp [validate_single_trajectory],
    fun s _ => withinBound_iff s b.delta_r,
    by simp [validate_single_trajectory],
    ?_, ?_⟩
  · simp only [validate_single_trajectory]
    omega
  · simp only [validate_single_trajectory]
    rw [hn]

/-- Witness for C2: on the two-sample trajectory with one violation of the
example bound, the result has 2 total points, 1 point within bounds and
empirical probability 1/2. -/
theorem validate_single_counts_witness :
    trajTwo ≠ [] ∧
    (validate_single_trajectory trajTwo exampleBound (1/20)).total_points = 2 ∧
    (validate_single_trajectory trajTwo exampleBound (1/20)).points_within_bounds = 1 ∧
    (validate_single_trajectory trajTwo exampleBound (1/20)).empirical_probability = 1/2 := by
  have h := validate_single_counts trajTwo exampleBound (1/20) (by simp [trajTwo])
  have e2 : trajTwo.length = 2 := rfl
  refine ⟨by simp [trajTwo], ?_, ?_, ?_⟩
  · rw [h.1, e2]
  · rw [h.2.1, trajTwo_filter_within]
  · rw [h.2.2.2.1, h.2.1, h.1, trajTwo_filter_within, e2]
    norm_num

/-- Claim C5: `max_violation` is 0 when no sample exceeds `delta_r`, is an
upper bound of `tracking_error - delta_r` over the out-of-bound samples, is
attained by one of them whenever they exist, and is non-negative always. -/
theorem max_violation_spec (traj : List TrajectorySample) (b : TheoreticalBound)
    (tolerance : ℚ) (h : traj ≠ []) :
    0 ≤ (validate_single_trajectory traj b tolerance).max_violation ∧
    (traj.filter (fun s => ! withinBound s b.delta_r) = [] →
      (validate_single_trajectory traj b tolerance).max_violation = 0) ∧
    (∀ s ∈ traj.filter (fun s => ! withinBound s b.delta_r),
      trackingError s - (b.delta_r : ℝ) ≤
        (validate_single_trajectory traj b tolerance).max_violation) ∧
    (traj.filter (fun s => ! withinBound s b.delta_r) ≠ [] →
      ∃ s ∈ traj.filter (fun s => ! withinBound s b.delta_r),
        (validate_single_trajectory traj b tolerance).max_violation =
          trackingError s - (b.delta_r : ℝ)) := by
  have hmv : (validate_single_trajectory traj b tolerance).max_violation =
      ((traj.filter (fun s => ! withinBound s b.delta_r)).map
        (fun s => trackingError s - (b.delta_r : ℝ))).foldr max 0 := by
    simp [validate_single_trajectory]
  refine ⟨?_, ?_, ?_, ?_⟩
  · rw [hmv]; exact foldr_max_init_le 0 _
  · intro hV; rw [hmv, hV]; rfl
  · intro s hs
    rw [hmv]
    exact le_foldr_max_of_mem 0 (List.mem_map_of_mem _ hs)
  · intro hV
    rcases foldr_max_mem (0 : ℝ)
        ((traj.filter (fun s => ! withinBound s b.delta_r)).map
          (fun s => trackingError s - (b.delta_r : ℝ))) with hmem | hzero
    · rcases List.mem_map.mp hmem with ⟨s, hs, hval⟩
      exact ⟨s, hs, by rw [hmv, ← hval]⟩
    · exfalso
      rcases List.exists_mem_of_ne_nil _ hV with ⟨s, hs⟩
      have hsv : withinBound s b.delta_r = false := by
        have := List.of_mem_filter hs
        simpa using this
      have hgt : (b.delta_r : ℝ) < trackingError s := by
        by_contra hc
        push_neg at hc
        have habs := (withinBound_iff s b.delta_r).mpr hc
        rw [hsv] at habs
        exact Bool.false_ne_true habs
      have hle : trackingError s - (b.delta_r : ℝ) ≤ 0 := by
        have hmem' : trackingError s - (b.delta_r : ℝ) ∈
            ((traj.filter (fun s => ! withinBound s b.delta_r)).map
              (fun s => trackingError s - (b.delta_r : ℝ))) :=
          List.mem_map_of_mem _ hs
        have := le_foldr_max_of_mem (0 : ℝ) hmem'
        rw [hzero] at this
        exact this
      linarith

/-- Witness for C5: on the two-sample trajectory the single violator at
distance 5 from its target yields `max_violation = 5 - 0.993 = 4.007`. -/
theorem max_violation_spec_witness :
    trajTwo ≠ [] ∧
    0 ≤ (validate_single_trajectory trajTwo exampleBound (1/20)).max_violation ∧
    (validate_single_trajectory trajTwo exampleBound (1/20)).max_violation
      = 4007/1000 := by
  have h := max_violation_spec trajTwo exampleBound (1/20) (by simp [trajTwo])
  refine ⟨by simp [trajTwo], h.1, ?_⟩
  rcases h.2.2.2 (by rw [trajTwo_filter_not_within]; simp) with ⟨s, hs, hval⟩
  rw [trajTwo_filter_not_within] at hs
  have hsf : s = farSample := by simpa using hs
  rw [hval, hsf, trackingError_farSample]
  simp only [exampleBound]
  push_cast
  norm_num

/-- Claim C6: a trajectory whose samples all have zero tracking error
validates with `empirical_probability = 1` and passes for every non-negative
tolerance, for any bound derived from valid calibration parameters. -/
theorem zero_error_passes (traj : List TrajectorySample) (b : TheoreticalBound)
    (tolerance : ℚ) (h1 : traj ≠ [])
    (h2 : ∀ s ∈ traj, trackingError s = 0)
    (hb : ∃ p, validParams p ∧ derive p = Except.ok b)
    (h3 : 0 ≤ tolerance) :
    (validate_single_trajectory traj b tolerance).empirical_probability = 1 ∧
    (validate_single_trajectory traj b tolerance).validation_passed = true := by
  obtain ⟨p, hv, he⟩ := hb
  rw [derive_eq_of_valid hv] at he
  injection he with hbe
  subst hbe
  have hδ : (0:ℚ) ≤ (p.forward_quantile + p.rho) / (1 - p.gamma) + p.inverse_quantile :=
    le_trans hv.2.2.2.2.2.2.2.2.2.1 (inverse_quantile_le_delta hv)
  have hprob : 1 - p.alpha - p.beta ≤ 1 := by
    have ha := hv.2.2.2.1
    have hbeta := hv.2.2.2.2.2.1
    linarith
  have hall : ∀ s ∈ traj, withinBound s
      ((p.forward_quantile + p.rho) / (1 - p.gamma) + p.inverse_quantile) = true := by
    intro s hs
    refine (withinBound_iff s _).mpr ?_
    rw [h2 s hs]
    exact_mod_cast hδ
  have hN : ((traj.length : ℚ)) ≠ 0 :=
    Nat.cast_ne_zero.mpr (fun hc => h1 (List.length_eq_zero.mp hc))
  have hemp : (validate_single_trajectory traj
      ⟨(p.forward_quantile + p.rho) / (1 - p.gamma) + p.inverse_quantile,
        1 - p.alpha - p.beta⟩ tolerance).empirical_probability = 1 := by
    simp only [validate_single_trajectory]
    rw [List.filter_eq_self.mpr hall, div_self hN]
  refine ⟨hemp, ?_⟩
  simp only [validate_single_trajectory] at hemp ⊢
  rw [hemp, decide_eq_true_eq]
  linarith

/-- Witness for C6: the one-sample zero-error trajectory validates against
the example bound with empirical probability 1 and passes at tolerance
1/20. -/
theorem zero_error_passes_witness :
    trajZero ≠ [] ∧ trackingError zSample = 0 ∧ (0:ℚ) ≤ 1/20 ∧
    (validate_single_trajectory trajZero exampleBound (1/20)).empirical_probability = 1 ∧
    (validate_single_trajectory trajZero exampleBound (1/20)).validation_passed = true := by
  have h := zero_error_passes trajZero exampleBound (1/20) (by simp [trajZero])
    (by
      intro s hs
      rw [show s = zSample by simpa [trajZero] using hs]
      exact trackingError_zSample)
    ⟨exampleParams, validParams_example, derive_example⟩ (by norm_num)
  exact ⟨by simp [trajZero], trackingError_zSample, by norm_num, h.1, h.2⟩

/-- Claim C8: every result of `validate_single_trajectory` on a non-empty
trajectory is internally consistent: `points_within_bounds ≤ total_points`
and `empirical_probability ∈ [0, 1]`. -/
theorem validation_result_consistent (traj : List TrajectorySample)
    (b : TheoreticalBound) (tolerance : ℚ) (h : traj ≠ []) :
    (validate_single_trajectory traj b tolerance).points_within_bounds ≤
      (validate_single_trajectory traj b tolerance).total_points ∧
    0 ≤ (validate_single_trajectory traj b tolerance).empirical_probability ∧
    (validate_single_trajectory traj b tolerance).empirical_probability ≤ 1 := by
  have hlen := List.length_filter_le (fun s => withinBound s b.delta_r) traj
  have hN : (0:ℚ) < (traj.length : ℚ) := by
    have hne : traj.length ≠ 0 := fun hc => h (List.length_eq_zero.mp hc)
    exact_mod_cast Nat.pos_of_ne_zero hne
  refine ⟨by simpa [validate_single_trajectory] using hlen, ?_, ?_⟩
  · simp only [validate_single_trajectory]
    positivity
  · simp only [validate_single_trajectory]
    rw [div_le_one hN]
    exact_mod_cast hlen

/-- Witness for C8: the invariant holds on the two-sample trajectory with
the example bound. -/
theorem validation_result_consistent_witness :
    trajTwo ≠ [] ∧
    (validate_single_trajectory trajTwo exampleBound (1/20)).points_within_bounds ≤
      (validate_single_trajectory trajTwo exampleBound (1/20)).total_points ∧
    0 ≤ (validate_single_trajectory trajTwo exampleBound (1/20)).empirical_probability ∧
    (validate_single_trajectory trajTwo exampleBound (1/20)).empirical_probability ≤ 1 := by
  have h := validation_result_consistent trajTwo exampleBound (1/20) (by simp [trajTwo])
  exact ⟨by simp [trajTwo], h.1, h.2.1, h.2.2⟩

end KoopmanCP

namespace KoopmanCP

/-- A raw persisted scalar value: a number, or a non-numeric token. -/
inductive RawVal
  | num (q : ℚ)
  | nonNumeric
deriving DecidableEq

/-- Modelled from the spec: the persisted trajectory record of section 6,
with optional `time`, `pose` and `control` fields (a missing field models a
record without that key) whose scalar entries may be non-numeric. -/
structure RawRecord where
  time : Option (List RawVal)
  pose : Option (List (RawVal × RawVal × RawVal))
  control : Option (List (RawVal × RawVal × RawVal))

/-- Modelled from the spec: `DataFormatError`, raised by `load` on malformed
or empty trajectory input. -/
inductive DataFormatError
  | missingField (name : String)
  | nonNumericValue
  | emptySamples
  | lengthMismatch
deriving DecidableEq

def asNum : RawVal → Option ℚ
  | .num q => some q
  | .nonNumeric => none

def asVec : RawVal × RawVal × RawVal → Option Vec3
  | (a, b, c) =>
    match asNum a with
    | none => none
    | some x =>
      match asNum b with
      | none => none
      | some y =>
        match asNum c with
        | none => none
        | some z => some ⟨x, y, z⟩

/-- Parse every element, failing if any single element fails. -/
def parseAll {α β : Type*} (f : α → Option β) : List α → Option (List β)
  | [] => some []
  | a :: l =>
    match f a with
    | none => none
    | some b =>
      match parseAll f l with
      | none => none
      | some bs => some (b :: bs)

/-- Time order on trajectory samples. -/
def timeLE (a b : TrajectorySample) : Prop := a.time ≤ b.time

instance : DecidableRel timeLE :=
  fun a b => inferInstanceAs (Decidable (a.time ≤ b.time))

instance : IsTotal TrajectorySample timeLE :=
  ⟨fun a b => le_total a.time b.time⟩

instance : IsTrans TrajectorySample timeLE :=
  ⟨fun _ _ _ hab hbc => le_trans hab hbc⟩

/-- Zip parsed time, pose and control sequences into samples. -/
def zipSamples : List ℚ → List Vec3 → List Vec3 → List TrajectorySample
  | t :: ts, p :: ps, c :: cs => ⟨t, p, c⟩ :: zipSamples ts ps cs
  | _, _, _ => []

/-- Modelled from the spec: `TrajectoryValidator.load`.  Fails with a
`DataFormatError` on a missing required field, a non-numeric value, an empty
sample set or unequal `time`/`pose`/`control` lengths; on success returns the
samples sorted ascending by time. -/
def load (rec : RawRecord) : Except DataFormatError (List TrajectorySample) :=
  match rec.time with
  | none => .error (.missingField "time")
  | some ts =>
    match rec.pose with
    | none => .error (.missingField "pose")
    | some ps =>
      match rec.control with
      | none => .error (.missingField "control")
      | some cs =>
        match parseAll asNum ts with
        | none => .error .nonNumericValue
        | some tq =>
          match parseAll asVec ps with
          | none => .error .nonNumericValue
          | some pv =>
            match parseAll asVec cs with
            | none => .error .nonNumericValue
            | some cv2 =>
              if tq = [] then .error .emptySamples
              else if ¬ (tq.length = pv.length ∧ tq.length = cv2.length) then
                .error .lengthMismatch
              else .ok (List.insertionSort timeLE (zipSamples tq pv cv2))

/-- The malformedness conditions of the spec: missing required field,
non-numeric value, empty sample set, or unequal sequence lengths. -/
def malformed (rec : RawRecord) : Prop :=
  rec.time = none ∨ rec.pose = none ∨ rec.control = none ∨
  (∃ ts, rec.time = some ts ∧ ∃ v ∈ ts, asNum v = none) ∨
  (∃ ps, rec.pose = some ps ∧ ∃ v ∈ ps, asVec v = none) ∨
  (∃ cs, rec.control = some cs ∧ ∃ v ∈ cs, asVec v = none) ∨
  rec.time = some [] ∨
  (∃ ts ps cs, rec.time = some ts ∧ rec.pose = some ps ∧ rec.control = some cs ∧
    ¬ (ts.length = ps.length ∧ ts.length = cs.length))

lemma parseAll_eq_none_iff {α β : Type*} (f : α → Option β) :
    ∀ l : List α, parseAll f l = none ↔ ∃ a ∈ l, f a = none
  | [] => by simp [parseAll]
  | a :: l => by
    have ih := parseAll_eq_none_iff f l
    cases hfa : f a with
    | none =>
      simp only [parseAll, hfa]
      exact iff_of_true trivial ⟨a, List.mem_cons_self a l, hfa⟩
    | some b =>
      cases hpl : parseAll f l with
      | none =>
        simp only [parseAll, hfa, hpl]
        refine iff_of_true trivial ?_
        rcases ih.mp hpl with ⟨x, hx, hfx⟩
        exact ⟨x, List.mem_cons_of_mem a hx, hfx⟩
      | some bs =>
        simp only [parseAll, hfa, hpl]
        refine iff_of_false (by simp) ?_
        rintro ⟨x, hx, hfx⟩
        rcases List.mem_cons.mp hx with rfl | hx'
        · rw [hfa] at hfx; exact Option.noConfusion hfx
        · exact Option.noConfusion (hpl ▸ ih.mpr ⟨x, hx', hfx⟩)

lemma parseAll_length {α β : Type*} (f : α → Option β) :
    ∀ (l : List α) (l' : List β), parseAll f l = some l' → l'.length = l.length := by
  intro l
  induction l with
  | nil =>
    intro l' h
    simp only [parseAll, Option.some.injEq] at h
    rw [← h]
    rfl
  | cons a l ih =>
    intro l' h
    simp only [parseAll] at h
    cases hfa : f a with
    | none => rw [hfa] at h; exact Option.noConfusion h
    | some b =>
      rw [hfa] at h
      cases hpl : parseAll f l with
      | none => rw [hpl] at h; exact Option.noConfusion h
      | some bs =>
        rw [hpl] at h
        simp only [Option.some.injEq] at h
        rw [← h]
        simp [ih bs hpl]

end KoopmanCP

namespace KoopmanCP

lemma load_ok_props {rec : RawRecord} {t : List TrajectorySample}
    (h : load rec = Except.ok t) : ¬ malformed rec ∧ List.Sorted timeLE t := by
  unfold load at h
  cases hot : rec.time with
  | none => rw [hot] at h; exact Except.noConfusion h
  | some ts =>
  rw [hot] at h
  dsimp only at h
  cases hop : rec.pose with
  | none => rw [hop] at h; exact Except.noConfusion h
  | some ps =>
  rw [hop] at h
  dsimp only at h
  cases hoc : rec.control with
  | none => rw [hoc] at h; exact Except.noConfusion h
  | some cs =>
  rw [hoc] at h
  dsimp only at h
  cases htq : parseAll asNum ts with
  | none => rw [htq] at h; exact Except.noConfusion h
  | some tq =>
  rw [htq] at h
  dsimp only at h
  cases hpv : parseAll asVec ps with
  | none => rw [hpv] at h; exact Except.noConfusion h
  | some pv =>
  rw [hpv] at h
  dsimp only at h
  cases hcv : parseAll asVec cs with
  | none => rw [hcv] at h; exact Except.noConfusion h
  | some cv2 =>
  rw [hcv] at h
  dsimp only at h
  by_cases hemp : tq = []
  · rw [if_pos hemp] at h; exact Except.noConfusion h
  rw [if_neg hemp] at h
  by_cases hlen : tq.length = pv.length ∧ tq.length = cv2.length
  case neg => rw [if_pos hlen] at h; exact Except.noConfusion h
  rw [if_neg (not_not_intro hlen)] at h
  injection h with h
  constructor
  · intro hm
    rcases hm with h1 | h1 | h1 | ⟨ts', hts', v, hv, hnum⟩ | ⟨ps', hps', v, hv, hnum⟩ |
      ⟨cs', hcs', v, hv, hnum⟩ | h1 | ⟨ts', ps', cs', hts', hps', hcs', hlen'⟩
    · rw [hot] at h1; exact Option.noConfusion h1
    · rw [hop] at h1; exact Option.noConfusion h1
    · rw [hoc] at h1; exact Option.noConfusion h1
    · rw [hot] at hts'
      injection hts' with e1
      subst e1
      have hn := (parseAll_eq_none_iff asNum ts).mpr ⟨v, hv, hnum⟩
      rw [htq] at hn
      exact Option.noConfusion hn
    · rw [hop] at hps'
      injection hps' with e2
      subst e2
      have hn := (parseAll_eq_none_iff asVec ps).mpr ⟨v, hv, hnum⟩
      rw [hpv] at hn
      exact Option.noConfusion hn
    · rw [hoc] at hcs'
      injection hcs' with e3
      subst e3
      have hn := (parseAll_eq_none_iff asVec cs).mpr ⟨v, hv, hnum⟩
      rw [hcv] at hn
      exact Option.noConfusion hn
    · rw [hot] at h1
      injection h1 with e1
      subst e1
      simp only [parseAll, Option.some.injEq] at htq
      exact hemp htq.symm
    · rw [hot] at hts'
      injection hts' with e1
      rw [hop] at hps'
      injection hps' with e2
      rw [hoc] at hcs'
      injection hcs' with e3
      subst e1; subst e2; subst e3
      have l1 := parseAll_length asNum _ tq htq
      have l2 := parseAll_length asVec _ pv hpv
      have l3 := parseAll_length asVec _ cv2 hcv
      have hl1 := hlen.1
      have hl2 := hlen.2
      exact hlen' ⟨by omega, by omega⟩
  · rw [← h]
    exact List.sorted_insertionSort timeLE _

lemma load_ok_of_not_malformed {rec : RawRecord} (h : ¬ malformed rec) :
    ∃ t, load rec = Except.ok t := by
  unfold malformed at h
  push_neg at h
  obtain ⟨h1, h2, h3, h4, h5, h6, h7, h8⟩ := h
  cases hot : rec.time with
  | none => exact absurd hot h1
  | some ts =>
  cases hop : rec.pose with
  | none => exact absurd hop h2
  | some ps =>
  cases hoc : rec.control with
  | none => exact absurd hoc h3
  | some cs =>
  have htqn : parseAll asNum ts ≠ none := by
    intro hc
    rcases (parseAll_eq_none_iff asNum ts).mp hc with ⟨v, hv, hnum⟩
    exact h4 ts hot v hv hnum
  have hpvn : parseAll asVec ps ≠ none := by
    intro hc
    rcases (parseAll_eq_none_iff asVec ps).mp hc with ⟨v, hv, hnum⟩
    exact h5 ps hop v hv hnum
  have hcvn : parseAll asVec cs ≠ none := by
    intro hc
    rcases (parseAll_eq_none_iff asVec cs).mp hc with ⟨v, hv, hnum⟩
    exact h6 cs hoc v hv hnum
  obtain ⟨tq, htq⟩ := Option.ne_none_iff_exists'.mp htqn
  obtain ⟨pv, hpv⟩ := Option.ne_none_iff_exists'.mp hpvn
  obtain ⟨cv2, hcv⟩ := Option.ne_none_iff_exists'.mp hcvn
  have hts_ne : ts ≠ [] := fun hc => h7 (hc ▸ hot)
  have l1 := parseAll_length asNum ts tq htq
  have l2 := parseAll_length asVec ps pv hpv
  have l3 := parseAll_length asVec cs cv2 hcv
  have htq_ne : tq ≠ [] := by
    intro hc
    apply hts_ne
    rw [hc] at l1
    exact (List.length_eq_zero.mp l1.symm)
  have hlen := h8 ts ps cs hot hop hoc
  refine ⟨List.insertionSort timeLE (zipSamples tq pv cv2), ?_⟩
  unfold load
  rw [hot]
  dsimp only
  rw [hop]
  dsimp only
  rw [hoc]
  dsimp only
  rw [htq]
  dsimp only
  rw [hpv]
  dsimp only
  rw [hcv]
  dsimp only
  rw [if_neg htq_ne, if_neg (not_not_intro ⟨by omega, by omega⟩)]

end KoopmanCP

namespace KoopmanCP

/-- A record missing its `time` field. -/
def badRec : RawRecord := ⟨none, some [], some []⟩

/-- A well-formed two-sample record whose times arrive out of order. -/
def goodRec : RawRecord :=
  ⟨some [.num 1, .num 0],
   some [(.num 0, .num 0, .num 0), (.num 0, .num 0, .num 0)],
   some [(.num 0, .num 0, .num 0), (.num 0, .num 0, .num 0)]⟩

/-- A sample at the origin with time stamp 1. -/
def oneSecSample : TrajectorySample := ⟨1, originVec, originVec⟩

/-- Claim C7: `load` fails with a `DataFormatError` exactly on malformed
records (missing required field, non-numeric value, empty sample set, or
unequal `time`/`pose`/`control` lengths), and on success returns the samples
sorted ascending by time. -/
theorem load_spec :
    (∀ rec : RawRecord, (∃ e, load rec = Except.error e) ↔ malformed rec) ∧
    (∀ (rec : RawRecord) (t : List TrajectorySample), load rec = Except.ok t →
      List.Sorted timeLE t) := by
  constructor
  · intro rec
    constructor
    · rintro ⟨e, he⟩
      by_contra hm
      obtain ⟨t, ht⟩ := load_ok_of_not_malformed hm
      rw [ht] at he
      exact Except.noConfusion he
    · intro hm
      cases hres : load rec with
      | ok t => exact absurd hm (load_ok_props hres).1
      | error e => exact ⟨e, rfl⟩
  · exact fun rec t ht => (load_ok_props ht).2

lemma load_goodRec : load goodRec = Except.ok [zSample, oneSecSample] := by
  unfold load goodRec
  simp only [parseAll, asNum, asVec]
  rw [if_neg (by simp : ¬ ([(1:ℚ), 0] = []))]
  rw [if_neg (not_not_intro (by simp))]
  simp only [zipSamples, List.insertionSort, List.orderedInsert]
  rw [if_neg (show ¬ timeLE ⟨1, ⟨0,0,0⟩, ⟨0,0,0⟩⟩ ⟨0, ⟨0,0,0⟩, ⟨0,0,0⟩⟩ by
    unfold timeLE; norm_num)]
  simp [zSample, oneSecSample, originVec]

/-- Witness for C7: a record missing its `time` field fails to load, and the
out-of-order two-sample record loads into a time-sorted trajectory. -/
theorem load_spec_witness :
    (∃ e, load badRec = Except.error e) ∧
    load goodRec = Except.ok [zSample, oneSecSample] ∧
    List.Sorted timeLE [zSample, oneSecSample] := by
  refine ⟨load_spec.1 badRec |>.mpr (Or.inl rfl), load_goodRec, ?_⟩
  exact load_spec.2 goodRec [zSample, oneSecSample] load_goodRec

end KoopmanCP

namespace KoopmanCP

/-- Modelled from the spec: `validate_multiple_trajectories` loads and
validates each named source independently; a source that fails to load is
recorded as a `(source, error)` pair while the remaining sources still
produce results, and no failure is raised to the caller. -/
noncomputable def validate_multiple_trajectories
    (srcs : List (String × RawRecord)) (b : TheoreticalBound) (tolerance : ℚ) :
    List ValidationResult × List (String × DataFormatError) :=
  match srcs with
  | [] => ([], [])
  | (nm, rec) :: rest =>
    let acc := validate_multiple_trajectories rest b tolerance
    match load rec with
    | .ok t => (validate_single_trajectory t b tolerance :: acc.1, acc.2)
    | .error e => (acc.1, (nm, e) :: acc.2)

lemma vm_results_eq (b : TheoreticalBound) (tolerance : ℚ) :
    ∀ srcs : List (String × RawRecord),
      (validate_multiple_trajectories srcs b tolerance).1 =
        srcs.filterMap (fun s =>
          match load s.2 with
          | .ok t => some (validate_single_trajectory t b tolerance)
          | .error _ => none)
  | [] => rfl
  | (nm, rec) :: rest => by
    have ih := vm_results_eq b tolerance rest
    simp only [validate_multiple_trajectories, List.filterMap_cons]
    cases hl : load rec with
    | ok t => simp only [hl, ih]
    | error e => simp only [hl, ih]

lemma vm_errors_eq (b : TheoreticalBound) (tolerance : ℚ) :
    ∀ srcs : List (String × RawRecord),
      (validate_multiple_trajectories srcs b tolerance).2 =
        srcs.filterMap (fun s =>
          match load s.2 with
          | .ok _ => none
          | .error e => some (s.1, e))
  | [] => rfl
  | (nm, rec) :: rest => by
    have ih := vm_errors_eq b tolerance rest
    simp only [validate_multiple_trajectories, List.filterMap_cons]
    cases hl : load rec with
    | ok t => simp only [hl, ih]
    | error e => simp only [hl, ih]

lemma vm_results_length (b : TheoreticalBound) (tolerance : ℚ) :
    ∀ srcs : List (String × RawRecord),
      (validate_multiple_trajectories srcs b tolerance).1.length =
        (srcs.filter (fun s => (load s.2).isOk)).length
  | [] => rfl
  | (nm, rec) :: rest => by
    have ih := vm_results_length b tolerance rest
    simp only [validate_multiple_trajectories, List.filter_cons]
    cases hl : load rec with
    | ok t => simp [hl, ih, Except.isOk, Except.toBool]
    | error e => simp [hl, ih, Except.isOk, Except.toBool]

lemma vm_errors_length (b : TheoreticalBound) (tolerance : ℚ) :
    ∀ srcs : List (String × RawRecord),
      (validate_multiple_trajectories srcs b tolerance).2.length =
        (srcs.filter (fun s => ! (load s.2).isOk)).length
  | [] => rfl
  | (nm, rec) :: rest => by
    have ih := vm_errors_length b tolerance rest
    simp only [validate_multiple_trajectories, List.filter_cons]
    cases hl : load rec with
    | ok t => simp [hl, ih, Except.isOk, Except.toBool]
    | error e => simp [hl, ih, Except.isOk, Except.toBool]

/-- Two valid sources and one malformed source, as in the spec's partial
failure scenario. -/
def mixedSources : List (String × RawRecord) :=
  [("good1", goodRec), ("good2", goodRec), ("bad", badRec)]

lemma load_badRec : load badRec = Except.error (.missingField "time") := rfl

/-- Claim C4: `validate_multiple_trajectories` never raises (it is a total
function of its inputs): every source that loads contributes exactly one
result, every source that fails to load contributes exactly one recorded
`(source, error)` pair, results plus errors exhaust the batch, and on a mix
of 2 valid and 1 malformed source it returns exactly 2 results and 1 recorded
error. -/
theorem validate_multiple_partial_failure :
    (∀ (b : TheoreticalBound) (tolerance : ℚ) (srcs : List (String × RawRecord)),
      (validate_multiple_trajectories srcs b tolerance).1.length =
        (srcs.filter (fun s => (load s.2).isOk)).length ∧
      (validate_multiple_trajectories srcs b tolerance).2 =
        srcs.filterMap (fun s =>
          match load s.2 with
          | .ok _ => none
          | .error e => some (s.1, e)) ∧
      (validate_multiple_trajectories srcs b tolerance).1.length +
        (validate_multiple_trajectories srcs b tolerance).2.length = srcs.length) ∧
    (∀ (b : TheoreticalBound) (tolerance : ℚ),
      (validate_multiple_trajectories mixedSources b tolerance).1.length = 2 ∧
      (validate_multiple_trajectories mixedSources b tolerance).2 =
        [("bad", DataFormatError.missingField "time")]) := by
  have hok : (load goodRec).isOk = true := by rw [load_goodRec]; rfl
  have hbad : (load badRec).isOk = false := by rw [load_badRec]; rfl
  constructor
  · intro b tolerance srcs
    refine ⟨vm_results_length b tolerance srcs, vm_errors_eq b tolerance srcs, ?_⟩
    rw [vm_results_length b tolerance srcs, vm_errors_length b tolerance srcs]
    exact length_filter_add_length_filter_not (fun s => (load s.2).isOk) srcs
  · intro b tolerance
    constructor
    · rw [vm_results_length b tolerance mixedSources]
      simp [mixedSources, List.filter_cons, hok, hbad]
    · rw [vm_errors_eq b tolerance mixedSources]
      simp [mixedSources, List.filterMap_cons, load_goodRec, load_badRec]

end KoopmanCP

namespace KoopmanCP

/-- Render an exact rational as `num/den` text. -/
def ratText (q : ℚ) : String :=
  toString q.num ++ "/" ++ toString q.den

/-- One report line for a result: theoretical vs. empirical probability and a
pass/fail marker. -/
def resultLine (r : ValidationResult) : String :=
  "theoretical=" ++ ratText r.theoretical_probability ++
    " empirical=" ++ ratText r.empirical_probability ++
    (if r.validation_passed then " PASSED" else " FAILED") ++ "\n"

/-- The per-result section of the report, accumulated in input order. -/
def resultSection (rs : List ValidationResult) : String :=
  rs.foldl (fun acc r => acc ++ resultLine r) ""

/-- Concatenation of a list of report fragments, in order. -/
def concatAll : List String → String
  | [] => ""
  | s :: l => s ++ concatAll l

/-- Number of passed results. -/
def passedCount (rs : List ValidationResult) : ℕ :=
  (rs.filter (fun r => r.validation_passed)).length

/-- Modelled from the spec: the success rate `passed / total`, stated as zero
for an empty batch instead of raising a division error. -/
def successRate (rs : List ValidationResult) : ℚ :=
  if rs.length = 0 then 0 else (passedCount rs : ℚ) / (rs.length : ℚ)

/-- Mean empirical probability across the results, zero for an empty batch. -/
def meanEmpirical (rs : List ValidationResult) : ℚ :=
  if rs.length = 0 then 0
  else (rs.map (fun r => r.empirical_probability)).sum / (rs.length : ℚ)

/-- Modelled from the spec: `generate_validation_report`, a deterministic
plain-text summary with the per-result lines in input order followed by the
aggregate statistics. -/
def generate_validation_report (rs : List ValidationResult) : String :=
  "THEORETICAL BOUNDS VALIDATION REPORT\n" ++ resultSection rs ++
    "Passed: " ++ toString (passedCount rs) ++ "/" ++ toString rs.length ++ "\n" ++
    "Success rate: " ++ ratText (successRate rs) ++ "\n" ++
    "Mean empirical probability: " ++ ratText (meanEmpirical rs) ++ "\n"

lemma foldl_resultLine_eq (rs : List ValidationResult) :
    ∀ acc : String,
      rs.foldl (fun a r => a ++ resultLine r) acc = acc ++ concatAll (rs.map resultLine) := by
  induction rs with
  | nil => intro acc; simp [concatAll, String.append_empty]
  | cons r rs ih =>
    intro acc
    simp only [List.foldl_cons, List.map_cons, concatAll, ih,
      String.append_assoc]

/-- Claim C9: `generate_validation_report` is deterministic (equal inputs give
byte-for-byte equal text), its per-result lines appear in input order, and on
an empty batch it reports a zero success rate instead of raising a division
error. -/
theorem generate_report_spec :
    (∀ rs1 rs2 : List ValidationResult, rs1 = rs2 →
      generate_validation_report rs1 = generate_validation_report rs2) ∧
    (∀ rs : List ValidationResult,
      resultSection rs = concatAll (rs.map resultLine)) ∧
    successRate [] = 0 ∧
    generate_validation_report [] =
      "THEORETICAL BOUNDS VALIDATION REPORT\n" ++ "Passed: 0/0\n" ++
        "Success rate: 0/1\n" ++ "Mean empirical probability: 0/1\n" := by
  refine ⟨fun rs1 rs2 h => h ▸ rfl, ?_, rfl, ?_⟩
  · intro rs
    rw [resultSection, foldl_resultLine_eq rs "", String.empty_append]
  · rfl

/-- Witness for C9: applying determinism at the empty batch. -/
theorem generate_report_spec_witness :
    generate_validation_report [] = generate_validation_report [] :=
  generate_report_spec.1 [] [] rfl

end KoopmanCP

namespace KoopmanCP

/-- The configuration record of `examples/flapper/solo_koopman_conformal_circle.py`. -/
structure FlapperConfig where
  trajectory_type : String
  omega : ℚ
  radius : ℚ
  takeoff_sec : ℚ
  tracking_sec : ℚ

/-- The `data` dictionary of the producer script: parallel `pose`, `time`
and `control` lists. -/
structure LogData where
  pose : List Vec3
  time : List ℚ
  control : List Vec3

/-- The environment-supplied values observed by one iteration of the main
flight loop: the elapsed time `t`, the remote service status, the absolute
height of the drone, and the (origin-relative) pose and target that would be
logged. -/
structure IterObs where
  t : ℚ
  status : String
  poseAbsZ : ℚ
  poseRel : Vec3
  targetRel : Vec3

/-- The three `data[...].append(...)` statements of the loop body: one entry
is appended to each of `pose`, `time` and `control`. -/
def appendLog (d : LogData) (o : IterObs) : LogData :=
  ⟨d.pose ++ [o.poseRel], d.time ++ [o.t], d.control ++ [o.targetRel]⟩

/-- One iteration of the main flight loop of the producer script: during
takeoff it logs; during tracking it breaks on a non-OK service status or on
`pose.z > 2.5`, otherwise logs; after the tracking window it breaks.  The
returned flag is `true` when the iteration logged (and the loop continues). -/
def loopBody (cfg : FlapperConfig) (o : IterObs) (d : LogData) : LogData × Bool :=
  if o.t < cfg.takeoff_sec then (appendLog d o, true)
  else if o.t < cfg.takeoff_sec + cfg.tracking_sec then
    if o.status ≠ "OK" then (d, false)
    else if 5/2 < o.poseAbsZ then (d, false)
    else (appendLog d o, true)
  else (d, false)

/-- The sequence of `data` snapshots written to `koopman_data.json`: the
script rewrites the file with the current `data` after every logged
iteration, and stops writing once the loop breaks. -/
def runLoopWrites (cfg : FlapperConfig) : List IterObs → LogData → List LogData
  | [], _ => []
  | o :: os, d =>
    match loopBody cfg o d with
    | (d', true) => d' :: runLoopWrites cfg os d'
    | (_, false) => []

/-- Equal-length `pose`/`time`/`control` sequences. -/
def balanced (d : LogData) : Prop :=
  d.pose.length = d.time.length ∧ d.time.length = d.control.length

/-- The raw trajectory record serialized from a `data` snapshot. -/
def rawOf (d : LogData) : RawRecord :=
  ⟨some (d.time.map RawVal.num),
   some (d.pose.map (fun v => (RawVal.num v.x, RawVal.num v.y, RawVal.num v.z))),
   some (d.control.map (fun v => (RawVal.num v.x, RawVal.num v.y, RawVal.num v.z)))⟩

lemma loopBody_spec (cfg : FlapperConfig) (o : IterObs) (d : LogData)
    (h : balanced d) :
    balanced (loopBody cfg o d).1 ∧
    ((loopBody cfg o d).2 = true →
      (loopBody cfg o d).1.pose.length = d.pose.length + 1 ∧
      (loopBody cfg o d).1.time.length = d.time.length + 1 ∧
      (loopBody cfg o d).1.control.length = d.control.length + 1) := by
  obtain ⟨h1, h2⟩ := h
  unfold loopBody
  by_cases c1 : o.t < cfg.takeoff_sec
  · rw [if_pos c1]
    exact ⟨⟨by simp [appendLog, h1], by simp [appendLog, h2]⟩,
      fun _ => ⟨by simp [appendLog], by simp [appendLog], by simp [appendLog]⟩⟩
  rw [if_neg c1]
  by_cases c2 : o.t < cfg.takeoff_sec + cfg.tracking_sec
  · rw [if_pos c2]
    by_cases c3 : o.status ≠ "OK"
    · rw [if_pos c3]
      exact ⟨⟨h1, h2⟩, fun hc => Bool.noConfusion hc⟩
    rw [if_neg c3]
    by_cases c4 : 5/2 < o.poseAbsZ
    · rw [if_pos c4]
      exact ⟨⟨h1, h2⟩, fun hc => Bool.noConfusion hc⟩
    · rw [if_neg c4]
      exact ⟨⟨by simp [appendLog, h1], by simp [appendLog, h2]⟩,
        fun _ => ⟨by simp [appendLog], by simp [appendLog], by simp [appendLog]⟩⟩
  · rw [if_neg c2]
    exact ⟨⟨h1, h2⟩, fun hc => Bool.noConfusion hc⟩

lemma runLoopWrites_invariant (cfg : FlapperConfig) :
    ∀ (os : List IterObs) (d : LogData), balanced d →
      ∀ w ∈ runLoopWrites cfg os d, balanced w ∧ w.time ≠ []
  | [], d, _, w, hw => absurd hw (List.not_mem_nil w)
  | o :: os, d, hd, w, hw => by
    rcases hlb : loopBody cfg o d with ⟨d', flag⟩
    rw [runLoopWrites, hlb] at hw
    cases flag with
    | false => exact absurd hw (List.not_mem_nil w)
    | true =>
      have hspec := loopBody_spec cfg o d hd
      rw [hlb] at hspec
      have hd' : balanced d' := hspec.1
      have hlen := hspec.2 rfl
      rcases List.mem_cons.mp hw with rfl | hw'
      · refine ⟨hd', ?_⟩
        intro hc
        have := hlen.2.1
        rw [hc] at this
        simp at this
      · exact runLoopWrites_invariant cfg os d' hd' w hw'

lemma rawOf_not_malformed {d : LogData} (hb : balanced d) (hne : d.time ≠ []) :
    ¬ malformed (rawOf d) := by
  intro hm
  rcases hm with h1 | h1 | h1 | ⟨ts, hts, v, hv, hnum⟩ | ⟨ps, hps, v, hv, hnum⟩ |
    ⟨cs, hcs, v, hv, hnum⟩ | h1 | ⟨ts, ps, cs, hts, hps, hcs, hlen⟩
  · exact Option.noConfusion h1
  · exact Option.noConfusion h1
  · exact Option.noConfusion h1
  · injection hts with e
    subst e
    rcases List.mem_map.mp hv with ⟨q, _, rfl⟩
    exact Option.noConfusion hnum
  · injection hps with e
    subst e
    rcases List.mem_map.mp hv with ⟨q, _, rfl⟩
    exact Option.noConfusion hnum
  · injection hcs with e
    subst e
    rcases List.mem_map.mp hv with ⟨q, _, rfl⟩
    exact Option.noConfusion hnum
  · injection h1 with e
    exact hne (List.map_eq_nil.mp e)
  · injection hts with e1
    injection hps with e2
    injection hcs with e3
    subst e1; subst e2; subst e3
    obtain ⟨hb1, hb2⟩ := hb
    simp only [List.length_map] at hlen
    exact hlen ⟨hb1.symm, hb2.symm ▸ rfl⟩

/-- Claim C10: every iteration of the producer's main flight loop that logs
appends exactly one entry to each of `pose`, `time` and `control` and keeps
them equal-length, so every `koopman_data.json` record the script writes has
equal-length sequences and satisfies the loader's precondition (it loads
successfully). -/
theorem producer_log_balanced :
    (∀ (cfg : FlapperConfig) (o : IterObs) (d : LogData), balanced d →
      balanced (loopBody cfg o d).1 ∧
      ((loopBody cfg o d).2 = true →
        (loopBody cfg o d).1.pose.length = d.pose.length + 1 ∧
        (loopBody cfg o d).1.time.length = d.time.length + 1 ∧
        (loopBody cfg o d).1.control.length = d.control.length + 1)) ∧
    (∀ (cfg : FlapperConfig) (os : List IterObs),
      ∀ w ∈ runLoopWrites cfg os ⟨[], [], []⟩,
        balanced w ∧ ∃ t, load (rawOf w) = Except.ok t) := by
  refine ⟨loopBody_spec, ?_⟩
  intro cfg os w hw
  have hinv := runLoopWrites_invariant cfg os ⟨[], [], []⟩ ⟨rfl, rfl⟩ w hw
  exact ⟨hinv.1, load_ok_of_not_malformed (rawOf_not_malformed hinv.1 hinv.2)⟩

/-- A concrete flight configuration. -/
def cfgEx : FlapperConfig := ⟨"XZ", 10, 1/2, 5, 30⟩

/-- A concrete takeoff-phase observation. -/
def obsEx : IterObs := ⟨1, "OK", 1, originVec, originVec⟩

/-- Witness for C10: starting from the empty `data` record, a takeoff-phase
iteration logs and yields one entry in each list. -/
theorem producer_log_balanced_witness :
    balanced (⟨[], [], []⟩ : LogData) ∧
    balanced (loopBody cfgEx obsEx ⟨[], [], []⟩).1 ∧
    ((loopBody cfgEx obsEx ⟨[], [], []⟩).2 = true →
      (loopBody cfgEx obsEx ⟨[], [], []⟩).1.pose.length = 1 ∧
      (loopBody cfgEx obsEx ⟨[], [], []⟩).1.time.length = 1 ∧
      (loopBody cfgEx obsEx ⟨[], [], []⟩).1.control.length = 1) := by
  have h := producer_log_balanced.1 cfgEx obsEx ⟨[], [], []⟩ ⟨rfl, rfl⟩
  exact ⟨⟨rfl, rfl⟩, h.1, fun hf => by simpa using h.2 hf⟩

end KoopmanCP
